import Mathlib

/-!
Shallow embedding of the ocean simulation (crabs, reefs, prey, clans,
beach) from `src/ocean/src/crab.rs`, `src/ocean/src/beach.rs` and
`src/ocean/src/clans.rs`, together with proofs about the hunting loop and
the clan aggregation/competition logic.

Modelling conventions:
  * `Rc<RefCell<Reef>>` sharing is modelled, as the design notes suggest,
    by a central arena of reefs (`List Reef`); a crab stores arena indices
    in its `reefs` field instead of direct references.  Mutation of a
    shared reef becomes an update of the arena at that index, so two crabs
    holding the same index observe the same mutations.
  * Rust `u32` values are modelled as `Nat`; the claims under study never
    depend on wrap-around, and the source's debug profile aborts on
    overflow, so no `% 2^32` reduction is introduced.
  * A Rust panic is modelled as `none` / a `Bool` failure flag paired with
    the state reached at the panic point, so that non-atomic mutations
    performed before a panic stay observable.
  * `HashMap` is modelled as an association list with insert-replaces-key
    semantics; iteration order of a `HashMap` is arbitrary, and every
    statement proved below is compatible with an arbitrary entry order.
-/

set_option autoImplicit false
set_option linter.unusedVariables false

/-- Modelled from the spec: the diet classification is an enum-like tag
(the defining file `src/ocean/src/diet.rs` is not under `src/`); an
equality-decidable tag type is all the modelled operations use. -/
abbrev Diet := Nat

/-- Modelled from the spec: colors are pure values combined by breeding
(the defining file `src/ocean/src/color.rs` is not under `src/`); the
spec excludes color genetics from the core and no claim constrains it. -/
abbrev Color := Nat

/-- Modelled from the spec: `Diet::random_diet()` draws a fresh random
diet for a bred crab.  The randomness source is outside the modelled core
and no claim constrains the drawn value, so it is a fixed tag here. -/
def Diet.random_diet : Diet := 0

/-- Modelled from the spec: `Color::cross` combines two parents' colors,
a pure value computation the spec excludes from the core; no claim
constrains the combined value. -/
def Color.cross (c1 c2 : Color) : Color := c1 + c2

/-- `Crab` from `src/ocean/src/crab.rs`: name, speed, color, diet and the
list of reefs the crab feeds from (arena indices, see the module header). -/
structure Crab where
  name : String
  speed : Nat
  color : Color
  diet : Diet
  reefs : List Nat

/-- `Crab::new`: fresh crab with no reefs. -/
def Crab.new (name : String) (speed : Nat) (color : Color) (diet : Diet) : Crab :=
  { name := name, speed := speed, color := color, diet := diet, reefs := [] }

/-- `Crab::breed`: offspring with the given name, speed 1, crossed color,
a fresh random diet and an empty reef list. -/
def Crab.breed (name : String) (crab1 : Crab) (crab2 : Crab) : Crab :=
  { name := name
    speed := 1
    color := Color.cross crab1.color crab2.color
    diet := Diet.random_diet
    reefs := [] }

/-- `Crab::discover_reef`: push a reef (arena index) onto the crab's list. -/
def Crab.discover_reef (c : Crab) (reef : Nat) : Crab :=
  { c with reefs := c.reefs ++ [reef] }

/-- Modelled from the spec: a prey has a diet classification and an escape
outcome that is a function of which crab is attempting capture (the
defining file `src/ocean/src/prey.rs` is not under `src/`).  The source
passes `&mut self`, allowing a prey to change state in `try_escape`; the
claims under study only depend on the returned decision, so the outcome
is modelled as a pure function of the crab. -/
structure Prey where
  diet : Diet
  tryEscape : Crab → Bool

/-- Modelled from the spec: a reef owns a collection of currently resident
prey (the defining file `src/ocean/src/reef.rs` is not under `src/`). -/
structure Reef where
  prey : List Prey

/-- Modelled from the spec: `Reef::take_prey` removes and returns an
arbitrary resident prey if any exist, else signals empty; the choice is
deterministic (here: the first resident). -/
def Reef.take_prey : Reef → Option (Prey × Reef)
  | ⟨[]⟩ => none
  | ⟨p :: rest⟩ => some (p, ⟨rest⟩)

/-- Modelled from the spec: `Reef::add_prey` inserts a prey back into the
reef's resident collection; it never fails. -/
def Reef.add_prey (r : Reef) (p : Prey) : Reef :=
  ⟨r.prey ++ [p]⟩

/-- Total number of prey resident across every reef of the arena. -/
def totalHeapPrey (heap : List Reef) : Nat :=
  (heap.map (fun r => r.prey.length)).sum

/-- Total number of prey resident across the reefs a crab feeds from
(an arena index outside the arena counts as an empty reef; it never
arises for states built by the source's operations). -/
def crabTotalPrey (c : Crab) (heap : List Reef) : Nat :=
  (c.reefs.map (fun id => ((heap[id]?).getD ⟨[]⟩).prey.length)).sum

/-- Loop body of `Crab::catch_prey`: scan the remaining reef indices in
order, keeping track of the position `pos` in the crab's reef list, and
return the first prey obtained together with that position and the
updated arena. -/
def catchPreyAux (heap : List Reef) : List Nat → Nat → Option (Prey × Nat × List Reef)
  | [], _ => none
  | id :: rest, pos =>
    match ((heap[id]?).getD ⟨[]⟩).take_prey with
    | some (p, r2) => some (p, pos, heap.set id r2)
    | none => catchPreyAux heap rest (pos + 1)

/-- `Crab::catch_prey`: try each reef once, first-to-last; `Some` of the
prey and the index of its reef in `self.reefs`, or `None` if all reefs
are empty or the crab has no reefs. -/
def Crab.catch_prey (c : Crab) (heap : List Reef) : Option (Prey × Nat × List Reef) :=
  catchPreyAux heap c.reefs 0

/-- `Crab::release_prey`: put the given prey back into the reef at the
given index of `self.reefs` via `add_prey`.  In the source
`self.reefs[reef_index]` aborts when the index is out of bounds; the sole
caller (`hunt`) only reaches it with index `0` and a nonempty reef list,
so the default branch of `getD` is never exercised there. -/
def Crab.release_prey (c : Crab) (heap : List Reef) (p : Prey) (reef_index : Nat) : List Reef :=
  let id := c.reefs.getD reef_index 0
  heap.set id (((heap[id]?).getD ⟨[]⟩).add_prey p)

theorem totalHeapPrey_set (heap : List Reef) (id : Nat) (r r2 : Reef)
    (h : heap[id]? = some r) :
    totalHeapPrey (heap.set id r2) + r.prey.length
      = totalHeapPrey heap + r2.prey.length := by
  induction heap generalizing id with
  | nil => simp at h
  | cons a l ih =>
    cases id with
    | zero =>
      simp at h
      subst h
      simp [totalHeapPrey]
      omega
    | succ n =>
      simp at h
      have := ih n h
      simp [totalHeapPrey, List.set] at this ⊢
      omega

theorem catchPreyAux_spec (heap : List Reef) (l : List Nat) (pos : Nat)
    (p : Prey) (pos2 : Nat) (h2 : List Reef)
    (h : catchPreyAux heap l pos = some (p, pos2, h2)) :
    ∃ id r rest, id ∈ l ∧ heap[id]? = some r ∧ r.prey = p :: rest
      ∧ h2 = heap.set id ⟨rest⟩ := by
  induction l generalizing pos with
  | nil => simp [catchPreyAux] at h
  | cons id rest ih =>
    rw [catchPreyAux] at h
    cases hr : (heap[id]?).getD ⟨[]⟩ |>.take_prey with
    | none =>
      rw [hr] at h
      obtain ⟨a, b, c, hmem, hget, hprey, hset⟩ := ih (pos + 1) h
      exact ⟨a, b, c, List.mem_cons_of_mem _ hmem, hget, hprey, hset⟩
    | some pr =>
      rw [hr] at h
      obtain ⟨pp, r2⟩ := pr
      simp at h
      obtain ⟨hp, hpos, hh⟩ := h
      cases hget : heap[id]? with
      | none =>
        rw [hget] at hr
        simp [Reef.take_prey] at hr
      | some r =>
        rw [hget] at hr
        simp at hr
        cases hrp : r.prey with
        | nil =>
          rw [show r = Reef.mk r.prey from rfl, hrp] at hr
          simp [Reef.take_prey] at hr
        | cons q qs =>
          rw [show r = Reef.mk r.prey from rfl, hrp] at hr
          simp [Reef.take_prey] at hr
          refine ⟨id, r, qs, List.mem_cons_self _ _, hget, ?_, ?_⟩
          · rw [hrp, hr.1, hp]
          · rw [← hh, ← hr.2]

theorem catch_prey_spec (c : Crab) (heap : List Reef)
    (p : Prey) (pos : Nat) (h2 : List Reef)
    (h : c.catch_prey heap = some (p, pos, h2)) :
    ∃ id r rest, id ∈ c.reefs ∧ heap[id]? = some r ∧ r.prey = p :: rest
      ∧ h2 = heap.set id ⟨rest⟩ :=
  catchPreyAux_spec heap c.reefs 0 p pos h2 h

theorem catch_prey_total (c : Crab) (heap : List Reef)
    (p : Prey) (pos : Nat) (h2 : List Reef)
    (h : c.catch_prey heap = some (p, pos, h2)) :
    totalHeapPrey h2 + 1 = totalHeapPrey heap := by
  obtain ⟨id, r, rest, _, hget, hprey, hset⟩ := catch_prey_spec c heap p pos h2 h
  have := totalHeapPrey_set heap id r ⟨rest⟩ hget
  rw [hset]
  simp [hprey] at this
  omega

theorem catch_prey_total_lt (c : Crab) (heap : List Reef)
    (p : Prey) (pos : Nat) (h2 : List Reef)
    (h : c.catch_prey heap = some (p, pos, h2)) :
    totalHeapPrey h2 < totalHeapPrey heap := by
  have := catch_prey_total c heap p pos h2 h
  omega

/-- Loop of `Crab::hunt` (the `while !prey_caught` loop): repeatedly call
`catch_prey`; an escaping or inedible prey is pushed onto the local
`escaped_prey` accumulator and the loop retries, a caught prey stops the
loop with `true`, and exhaustion of prey stops it with `false`.  The reef
index returned by `catch_prey` is bound by the `if let` pattern and, as in
the source, unused (it shadows the outer `reef_index`, which stays `0`). -/
def Crab.huntLoop (c : Crab) (heap : List Reef) (escaped_prey : List Prey) :
    Bool × List Prey × List Reef :=
  match h : c.catch_prey heap with
  | none => (false, escaped_prey, heap)
  | some (prey_box, reef_index, h2) =>
    if prey_box.tryEscape c || c.diet != prey_box.diet then
      Crab.huntLoop c h2 (escaped_prey ++ [prey_box])
    else
      (true, escaped_prey, h2)
termination_by totalHeapPrey heap
decreasing_by exact catch_prey_total_lt c heap prey_box reef_index h2 h

/-- `Crab::hunt`: run the hunting loop, then release every escaped prey
back via `release_prey` at the outer `reef_index`, which is still `0`
because the loop's binding shadows it; return whether prey was caught
together with the final arena. -/
def Crab.hunt (c : Crab) (heap : List Reef) : Bool × List Reef :=
  let reef_index := 0
  match c.huntLoop heap [] with
  | (prey_caught, escaped_prey, h2) =>
    (prey_caught, escaped_prey.foldl (fun h p => c.release_prey h p reef_index) h2)

/-- Number of iterations of the `hunt` loop in which a prey is retrieved
from a reef (each such iteration either accumulates the prey as escaped
or catches it and stops). -/
def Crab.huntRounds (c : Crab) (heap : List Reef) : Nat :=
  match h : c.catch_prey heap with
  | none => 0
  | some (prey_box, reef_index, h2) =>
    if prey_box.tryEscape c || c.diet != prey_box.diet then
      Crab.huntRounds c h2 + 1
    else
      1
termination_by totalHeapPrey heap
decreasing_by exact catch_prey_total_lt c heap prey_box reef_index h2 h

/-- Association-list model of `std::collections::HashMap` insertion:
replaces any existing entry for the key. -/
def alInsert {α : Type} (l : List (String × α)) (k : String) (v : α) :
    List (String × α) :=
  (l.filter (fun q => q.1 != k)) ++ [(k, v)]

/-- Association-list model of `std::collections::HashMap` lookup. -/
def alLookup {α : Type} (l : List (String × α)) (k : String) : Option α :=
  (l.find? (fun q => q.1 == k)).map (fun q => q.2)

/-- A clan: mapping from member crab name to a cloned snapshot of the crab. -/
abbrev Clan := List (String × Crab)

/-- `ClanSystem` from `src/ocean/src/clans.rs`: mapping from clan id to clan. -/
structure ClanSystem where
  clans : List (String × Clan)

/-- `ClanSystem::new`: empty clan system. -/
def ClanSystem.new : ClanSystem := ⟨[]⟩

/-- `ClanSystem::create_clan`: insert an empty clan at the id (replacing
any existing clan with that id, as `HashMap::insert` does). -/
def ClanSystem.create_clan (cs : ClanSystem) (clan_id : String) : ClanSystem :=
  ⟨alInsert cs.clans clan_id []⟩

/-- `ClanSystem::add_member`: insert the member into the clan at the id.
The source unwraps `get_mut(clan_id)` and aborts when the clan does not
exist; its only caller (`Beach::add_member_to_clan`) creates the clan
first, so the `none` branch below is unreachable from the source's call
sites and is modelled as a no-op. -/
def ClanSystem.add_member (cs : ClanSystem) (clan_id : String)
    (member_name : String) (crab : Crab) : ClanSystem :=
  match alLookup cs.clans clan_id with
  | some m => ⟨alInsert cs.clans clan_id (alInsert m member_name crab)⟩
  | none => cs

/-- `ClanSystem::get_clan`: lookup of the clan at the id. -/
def ClanSystem.get_clan (cs : ClanSystem) (clan_id : String) : Option Clan :=
  alLookup cs.clans clan_id

/-- `ClanSystem::get_clan_member_names`: member names of the clan, or an
empty collection for an unknown id. -/
def ClanSystem.get_clan_member_names (cs : ClanSystem) (clan_id : String) :
    List String :=
  match alLookup cs.clans clan_id with
  | some m => m.map (fun q => q.1)
  | none => []

/-- `ClanSystem::get_clan_count`: number of clans in existence. -/
def ClanSystem.get_clan_count (cs : ClanSystem) : Nat :=
  cs.clans.length

/-- `ClanSystem::get_clan_member_count`: number of members of the clan at
the id, or `0` for an unknown id. -/
def ClanSystem.get_clan_member_count (cs : ClanSystem) (clan_id : String) : Nat :=
  match alLookup cs.clans clan_id with
  | some m => m.length
  | none => 0

/-- `ClanSystem::get_largest_clan_id`: fold over the clans keeping the
first clan whose member count strictly exceeds the best seen so far,
starting from `(None, 0)`; the member count of each clan is re-read via
`get_clan_member_count`, exactly as the source does. -/
def ClanSystem.get_largest_clan_id (cs : ClanSystem) : Option String :=
  (cs.clans.foldl
    (fun acc q =>
      let clan_size := cs.get_clan_member_count q.1
      if clan_size > acc.2 then (some q.1, clan_size) else acc)
    (none, 0)).1

/-- `Beach` from `src/ocean/src/beach.rs`: the resident crabs and the clan
system. -/
structure Beach where
  crabs : List Crab
  clan_system : ClanSystem

/-- `Beach::new`: empty beach. -/
def Beach.new : Beach := ⟨[], ClanSystem.new⟩

/-- `Beach::size`: number of crabs on the beach. -/
def Beach.size (b : Beach) : Nat := b.crabs.length

/-- `Beach::add_crab`: append the crab at the end of the collection. -/
def Beach.add_crab (b : Beach) (crab : Crab) : Beach :=
  { b with crabs := b.crabs ++ [crab] }

/-- `Beach::breed_crabs`: abort (`none`) when either index is out of
bounds, else append the offspring of the crabs at indices `i` and `j`.
The `getD` defaults are never reached: the guard has already ensured both
indices are in bounds. -/
def Beach.breed_crabs (b : Beach) (i j : Nat) (name : String) : Option Beach :=
  if i ≥ b.crabs.length ∨ j ≥ b.crabs.length then
    none
  else
    let crab1 := b.crabs.getD i (Crab.new "" 0 0 0)
    let crab2 := b.crabs.getD j (Crab.new "" 0 0 0)
    some { b with crabs := b.crabs ++ [Crab.breed name crab1 crab2] }

/-- `Beach::add_member_to_clan`: look up the crab by name, create the clan
if it does not yet exist, then add a clone of the crab — unwrapping the
lookup, which aborts (`false` flag) when no resident crab has the name.
The returned state is the one reached at exit, abort included, so the
clan created before the failing unwrap stays visible. -/
def Beach.add_member_to_clan (b : Beach) (clan_id : String) (crab_name : String) :
    Bool × Beach :=
  let crab := b.crabs.find? (fun c => c.name == crab_name)
  let cs1 :=
    if (b.clan_system.get_clan clan_id).isSome then b.clan_system
    else b.clan_system.create_clan clan_id
  match crab with
  | none => (false, { b with clan_system := cs1 })
  | some c => (true, { b with clan_system := cs1.add_member clan_id crab_name c })

/-- `Beach::get_winner_clan`: error when either clan id does not exist;
otherwise compare the truncating average member speeds, returning the id
of the strictly faster clan or `none` for a tie.  The outer `Option` is
the abort of the source's `u32` division when a clan has zero members. -/
def Beach.get_winner_clan (b : Beach) (id1 id2 : String) :
    Option (Except String (Option String)) :=
  match b.clan_system.get_clan id1, b.clan_system.get_clan id2 with
  | some clan1, some clan2 =>
    let total_clan1_speed := (clan1.map (fun q => q.2.speed)).sum
    let total_clan2_speed := (clan2.map (fun q => q.2.speed)).sum
    let clan1_count := b.clan_system.get_clan_member_count id1
    let clan2_count := b.clan_system.get_clan_member_count id2
    if clan1_count = 0 ∨ clan2_count = 0 then
      none
    else
      let avg_clan1_speed := total_clan1_speed / clan1_count
      let avg_clan2_speed := total_clan2_speed / clan2_count
      some (Except.ok
        (if avg_clan1_speed > avg_clan2_speed then some id1
         else if avg_clan2_speed > avg_clan1_speed then some id2
         else none))
  | _, _ => some (Except.error "Clan does not exist")

theorem huntLoop_none (c : Crab) (heap : List Reef) (esc : List Prey)
    (h : c.catch_prey heap = none) :
    c.huntLoop heap esc = (false, esc, heap) := by
  rw [Crab.huntLoop.eq_def]
  split
  · rfl
  · rename_i p pos h2 heq
    rw [h] at heq
    cases heq

theorem huntLoop_some (c : Crab) (heap : List Reef) (esc : List Prey)
    (p : Prey) (pos : Nat) (h2 : List Reef)
    (h : c.catch_prey heap = some (p, pos, h2)) :
    c.huntLoop heap esc =
      if p.tryEscape c || c.diet != p.diet then c.huntLoop h2 (esc ++ [p])
      else (true, esc, h2) := by
  rw [Crab.huntLoop.eq_def]
  split
  · rename_i heq
    rw [h] at heq
    cases heq
  · rename_i p2 pos2 h3 heq
    rw [h] at heq
    cases heq
    rfl

theorem huntRounds_none (c : Crab) (heap : List Reef)
    (h : c.catch_prey heap = none) :
    c.huntRounds heap = 0 := by
  rw [Crab.huntRounds.eq_def]
  split
  · rfl
  · rename_i p pos h2 heq
    rw [h] at heq
    cases heq

theorem huntRounds_some (c : Crab) (heap : List Reef)
    (p : Prey) (pos : Nat) (h2 : List Reef)
    (h : c.catch_prey heap = some (p, pos, h2)) :
    c.huntRounds heap =
      if p.tryEscape c || c.diet != p.diet then c.huntRounds h2 + 1 else 1 := by
  rw [Crab.huntRounds.eq_def]
  split
  · rename_i heq
    rw [h] at heq
    cases heq
  · rename_i p2 pos2 h3 heq
    rw [h] at heq
    cases heq
    rfl

theorem sum_map_le_of_mem {l : List Nat} {f g : Nat → Nat} {a : Nat}
    (ha : a ∈ l) (hle : ∀ x ∈ l, f x ≤ g x) (hlt : f a < g a) :
    (l.map f).sum < (l.map g).sum := by
  induction l with
  | nil => simp at ha
  | cons b m ih =>
    rcases List.mem_cons.mp ha with hb | hm
    · subst hb
      have h1 : (m.map f).sum ≤ (m.map g).sum :=
        List.sum_le_sum (fun x hx => hle x (List.mem_cons_of_mem _ hx))
      simp only [List.map_cons, List.sum_cons]
      omega
    · have h1 := ih hm (fun x hx => hle x (List.mem_cons_of_mem _ hx))
      have h2 : f a < g a := hlt
      have h3 : f b ≤ g b := hle b (List.mem_cons_self _ _)
      simp only [List.map_cons, List.sum_cons]
      omega

theorem sum_map_update {l : List Nat} {f g : Nat → Nat} {a : Nat}
    (hnd : l.Nodup) (ha : a ∈ l) (hfg : ∀ x ∈ l, x ≠ a → f x = g x) :
    (l.map f).sum + g a = (l.map g).sum + f a := by
  induction l with
  | nil => simp at ha
  | cons b m ih =>
    have hnd2 := List.nodup_cons.mp hnd
    rcases List.mem_cons.mp ha with hb | hm
    · subst hb
      have : ∀ x ∈ m, f x = g x := by
        intro x hx
        exact hfg x (List.mem_cons_of_mem _ hx) (fun hxa => hnd2.1 (hxa ▸ hx))
      have hsum : (m.map f).sum = (m.map g).sum := by
        congr 1
        exact List.map_congr_left this
      simp only [List.map_cons, List.sum_cons]
      omega
    · have hba : b ≠ a := fun hba => hnd2.1 (hba ▸ hm)
      have hfb : f b = g b := hfg b (List.mem_cons_self _ _) hba
      have h1 := ih hnd2.2 hm (fun x hx => hfg x (List.mem_cons_of_mem _ hx))
      simp only [List.map_cons, List.sum_cons]
      omega

theorem getElem?_set_self {l : List Reef} {id : Nat} {r : Reef}
    (h : id < l.length) : (l.set id r)[id]? = some r := by
  simp [List.getElem?_set_self', h]

theorem getElem?_set_other (l : List Reef) (id x : Nat) (r : Reef)
    (h : x ≠ id) : (l.set id r)[x]? = l[x]? := by
  rw [List.getElem?_set_ne (fun he => h he.symm)]

theorem crabTotalPrey_set (c : Crab) (heap : List Reef) (id : Nat) (r r2 : Reef)
    (hnd : c.reefs.Nodup) (hmem : id ∈ c.reefs) (hget : heap[id]? = some r) :
    crabTotalPrey c (heap.set id r2) + r.prey.length
      = crabTotalPrey c heap + r2.prey.length := by
  have hid : id < heap.length := by
    by_contra hge
    rw [List.getElem?_eq_none (Nat.le_of_not_lt hge)] at hget
    cases hget
  have key := sum_map_update (l := c.reefs)
    (f := fun x => (((heap.set id r2)[x]?).getD ⟨[]⟩).prey.length)
    (g := fun x => ((heap[x]?).getD ⟨[]⟩).prey.length)
    (a := id) hnd hmem
    (fun x _ hx => by
      show (((heap.set id r2)[x]?).getD ⟨[]⟩).prey.length
        = ((heap[x]?).getD ⟨[]⟩).prey.length
      rw [getElem?_set_other heap id x r2 hx])
  simp only [getElem?_set_self hid, hget, Option.getD_some] at key
  unfold crabTotalPrey
  omega

theorem crabTotalPrey_set_lt (c : Crab) (heap : List Reef) (id : Nat) (r r2 : Reef)
    (hmem : id ∈ c.reefs) (hget : heap[id]? = some r)
    (hlt : r2.prey.length < r.prey.length) :
    crabTotalPrey c (heap.set id r2) < crabTotalPrey c heap := by
  have hid : id < heap.length := by
    by_contra hge
    rw [List.getElem?_eq_none (Nat.le_of_not_lt hge)] at hget
    cases hget
  unfold crabTotalPrey
  apply sum_map_le_of_mem (a := id) hmem
  · intro x _
    show (((heap.set id r2)[x]?).getD ⟨[]⟩).prey.length
      ≤ ((heap[x]?).getD ⟨[]⟩).prey.length
    by_cases hx : x = id
    · subst hx
      rw [getElem?_set_self hid, hget]
      simp
      omega
    · rw [getElem?_set_other heap id x r2 hx]
  · show (((heap.set id r2)[id]?).getD ⟨[]⟩).prey.length
      < ((heap[id]?).getD ⟨[]⟩).prey.length
    rw [getElem?_set_self hid, hget]
    simp
    omega

theorem catch_prey_crab_total (c : Crab) (heap : List Reef)
    (p : Prey) (pos : Nat) (h2 : List Reef)
    (hnd : c.reefs.Nodup)
    (h : c.catch_prey heap = some (p, pos, h2)) :
    crabTotalPrey c h2 + 1 = crabTotalPrey c heap := by
  obtain ⟨id, r, rest, hmem, hget, hprey, hset⟩ := catch_prey_spec c heap p pos h2 h
  have := crabTotalPrey_set c heap id r ⟨rest⟩ hnd hmem hget
  rw [hset]
  simp [hprey] at this
  omega

theorem catch_prey_crab_total_lt (c : Crab) (heap : List Reef)
    (p : Prey) (pos : Nat) (h2 : List Reef)
    (h : c.catch_prey heap = some (p, pos, h2)) :
    crabTotalPrey c h2 < crabTotalPrey c heap := by
  obtain ⟨id, r, rest, hmem, hget, hprey, hset⟩ := catch_prey_spec c heap p pos h2 h
  rw [hset]
  apply crabTotalPrey_set_lt c heap id r ⟨rest⟩ hmem hget
  simp [hprey]

theorem catch_prey_length (c : Crab) (heap : List Reef)
    (p : Prey) (pos : Nat) (h2 : List Reef)
    (h : c.catch_prey heap = some (p, pos, h2)) :
    h2.length = heap.length := by
  obtain ⟨id, r, rest, hmem, hget, hprey, hset⟩ := catch_prey_spec c heap p pos h2 h
  rw [hset, List.length_set]

theorem huntLoop_length_aux (c : Crab) :
    ∀ n heap, totalHeapPrey heap ≤ n →
    ∀ esc b esc2 h2, c.huntLoop heap esc = (b, esc2, h2) →
      h2.length = heap.length := by
  intro n
  induction n with
  | zero =>
    intro heap hle esc b esc2 h2 hres
    cases hc : c.catch_prey heap with
    | none =>
      rw [huntLoop_none c heap esc hc] at hres
      cases hres
      rfl
    | some v =>
      obtain ⟨p, pos, h3⟩ := v
      have := catch_prey_total c heap p pos h3 hc
      omega
  | succ n ih =>
    intro heap hle esc b esc2 h2 hres
    cases hc : c.catch_prey heap with
    | none =>
      rw [huntLoop_none c heap esc hc] at hres
      cases hres
      rfl
    | some v =>
      obtain ⟨p, pos, h3⟩ := v
      have htot := catch_prey_total c heap p pos h3 hc
      have hlen := catch_prey_length c heap p pos h3 hc
      rw [huntLoop_some c heap esc p pos h3 hc] at hres
      by_cases hesc : (p.tryEscape c || c.diet != p.diet) = true
      · rw [if_pos hesc] at hres
        have := ih h3 (by omega) (esc ++ [p]) b esc2 h2 hres
        omega
      · rw [if_neg hesc] at hres
        cases hres
        omega

theorem huntLoop_length (c : Crab) (heap : List Reef)
    (esc b esc2 : _) (h2 : List Reef) (hres : c.huntLoop heap esc = (b, esc2, h2)) :
    h2.length = heap.length :=
  huntLoop_length_aux c (totalHeapPrey heap) heap (Nat.le_refl _) esc b esc2 h2 hres

theorem huntLoop_conserve_aux (c : Crab) (hnd : c.reefs.Nodup) :
    ∀ n heap, totalHeapPrey heap ≤ n →
    ∀ esc b esc2 h2, c.huntLoop heap esc = (b, esc2, h2) →
      crabTotalPrey c h2 + esc2.length + (if b then 1 else 0)
        = crabTotalPrey c heap + esc.length := by
  intro n
  induction n with
  | zero =>
    intro heap hle esc b esc2 h2 hres
    cases hc : c.catch_prey heap with
    | none =>
      rw [huntLoop_none c heap esc hc] at hres
      cases hres
      simp
    | some v =>
      obtain ⟨p, pos, h3⟩ := v
      have := catch_prey_total c heap p pos h3 hc
      omega
  | succ n ih =>
    intro heap hle esc b esc2 h2 hres
    cases hc : c.catch_prey heap with
    | none =>
      rw [huntLoop_none c heap esc hc] at hres
      cases hres
      simp
    | some v =>
      obtain ⟨p, pos, h3⟩ := v
      have htot := catch_prey_total c heap p pos h3 hc
      have hcrab := catch_prey_crab_total c heap p pos h3 hnd hc
      rw [huntLoop_some c heap esc p pos h3 hc] at hres
      by_cases hesc : (p.tryEscape c || c.diet != p.diet) = true
      · rw [if_pos hesc] at hres
        have := ih h3 (by omega) (esc ++ [p]) b esc2 h2 hres
        simp at this
        omega
      · rw [if_neg hesc] at hres
        cases hres
        simp
        omega

theorem huntLoop_conserve (c : Crab) (heap : List Reef) (hnd : c.reefs.Nodup)
    (esc b esc2 : _) (h2 : List Reef) (hres : c.huntLoop heap esc = (b, esc2, h2)) :
    crabTotalPrey c h2 + esc2.length + (if b then 1 else 0)
      = crabTotalPrey c heap + esc.length :=
  huntLoop_conserve_aux c hnd (totalHeapPrey heap) heap (Nat.le_refl _) esc b esc2 h2 hres

theorem getD_zero_mem (l : List Nat) (h : l ≠ []) : l.getD 0 0 ∈ l := by
  cases l with
  | nil => exact absurd rfl h
  | cons a t => simp [List.getD]

theorem release_prey_zero_eq (c : Crab) (heap : List Reef) (p : Prey) :
    c.release_prey heap p 0
      = heap.set (c.reefs.getD 0 0)
          (((heap[c.reefs.getD 0 0]?).getD ⟨[]⟩).add_prey p) := rfl

theorem release_foldl_crab_total (c : Crab) (hnd : c.reefs.Nodup) (hne : c.reefs ≠ []) :
    ∀ (esc : List Prey) (heap : List Reef), c.reefs.getD 0 0 < heap.length →
      crabTotalPrey c (esc.foldl (fun h p => c.release_prey h p 0) heap)
        = crabTotalPrey c heap + esc.length := by
  intro esc
  induction esc with
  | nil =>
    intro heap hlt
    simp
  | cons p rest ih =>
    intro heap hlt
    have hmem := getD_zero_mem c.reefs hne
    have hget := List.getElem?_eq_getElem hlt
    have hstep : crabTotalPrey c (c.release_prey heap p 0) = crabTotalPrey c heap + 1 := by
      rw [release_prey_zero_eq]
      have key := crabTotalPrey_set c heap (c.reefs.getD 0 0)
        (heap.get ⟨c.reefs.getD 0 0, hlt⟩)
        (((heap[c.reefs.getD 0 0]?).getD ⟨[]⟩).add_prey p) hnd hmem
        (by rw [hget]; rfl)
      have hlen2 : (((heap[c.reefs.getD 0 0]?).getD ⟨[]⟩).add_prey p).prey.length
          = (heap.get ⟨c.reefs.getD 0 0, hlt⟩).prey.length + 1 := by
        rw [hget]
        simp [Reef.add_prey, List.get_eq_getElem]
      omega
    have hlen : c.reefs.getD 0 0 < (c.release_prey heap p 0).length := by
      rw [release_prey_zero_eq, List.length_set]
      exact hlt
    simp only [List.foldl_cons]
    rw [ih (c.release_prey heap p 0) hlen, hstep]
    simp only [List.length_cons]
    omega

theorem release_foldl_get (c : Crab) :
    ∀ (esc : List Prey) (heap : List Reef), c.reefs.getD 0 0 < heap.length →
      ((esc.foldl (fun h p => c.release_prey h p 0) heap)[c.reefs.getD 0 0]?
          = some ⟨((heap[c.reefs.getD 0 0]?).getD ⟨[]⟩).prey ++ esc⟩)
      ∧ ∀ id, id ≠ c.reefs.getD 0 0 →
          (esc.foldl (fun h p => c.release_prey h p 0) heap)[id]? = heap[id]? := by
  intro esc
  induction esc with
  | nil =>
    intro heap hlt
    have hget := List.getElem?_eq_getElem hlt
    constructor
    · show heap[c.reefs.getD 0 0]?
        = some ⟨((heap[c.reefs.getD 0 0]?).getD ⟨[]⟩).prey ++ []⟩
      rw [hget]
      simp
    · intro id hid
      rfl
  | cons p rest ih =>
    intro heap hlt
    have hget := List.getElem?_eq_getElem hlt
    have hlen : c.reefs.getD 0 0 < (c.release_prey heap p 0).length := by
      rw [release_prey_zero_eq, List.length_set]
      exact hlt
    have hrec := ih (c.release_prey heap p 0) hlen
    have hat : (c.release_prey heap p 0)[c.reefs.getD 0 0]?
        = some (((heap[c.reefs.getD 0 0]?).getD ⟨[]⟩).add_prey p) := by
      rw [release_prey_zero_eq]
      exact getElem?_set_self hlt
    constructor
    · simp only [List.foldl_cons]
      rw [hrec.1, hat]
      simp only [Option.getD_some, Reef.add_prey]
      rw [List.append_assoc]
      rfl
    · intro id hid
      simp only [List.foldl_cons]
      rw [hrec.2 id hid, release_prey_zero_eq]
      exact getElem?_set_other heap (c.reefs.getD 0 0) id _ hid

theorem hunt_def_eq (c : Crab) (heap : List Reef) (b : Bool) (esc : List Prey)
    (h2 : List Reef) (hres : c.huntLoop heap [] = (b, esc, h2)) :
    c.hunt heap = (b, esc.foldl (fun h p => c.release_prey h p 0) h2) := by
  simp only [Crab.hunt]
  rw [hres]

theorem hunt_of_reefs_nil (c : Crab) (heap : List Reef) (h : c.reefs = []) :
    c.hunt heap = (false, heap) := by
  have hc : c.catch_prey heap = none := by
    rw [Crab.catch_prey, h]
    rfl
  rw [hunt_def_eq c heap false [] heap (huntLoop_none c heap [] hc)]
  rfl

theorem huntRounds_le_aux (c : Crab) :
    ∀ n heap, totalHeapPrey heap ≤ n → c.huntRounds heap ≤ crabTotalPrey c heap := by
  intro n
  induction n with
  | zero =>
    intro heap hle
    cases hc : c.catch_prey heap with
    | none =>
      rw [huntRounds_none c heap hc]
      exact Nat.zero_le _
    | some v =>
      obtain ⟨p, pos, h2⟩ := v
      have := catch_prey_total c heap p pos h2 hc
      omega
  | succ n ih =>
    intro heap hle
    cases hc : c.catch_prey heap with
    | none =>
      rw [huntRounds_none c heap hc]
      exact Nat.zero_le _
    | some v =>
      obtain ⟨p, pos, h2⟩ := v
      have htot := catch_prey_total c heap p pos h2 hc
      have hlt := catch_prey_crab_total_lt c heap p pos h2 hc
      rw [huntRounds_some c heap p pos h2 hc]
      by_cases hesc : (p.tryEscape c || c.diet != p.diet) = true
      · rw [if_pos hesc]
        have := ih h2 (by omega)
        omega
      · rw [if_neg hesc]
        omega

/-- C10: for every crab whose reef list is empty, `hunt()` returns `false`
and leaves the whole arena of reefs unchanged (the crab itself is a pure
value here and is never modified by `hunt`). -/
theorem Crab.hunt_no_reefs_noop (c : Crab) (heap : List Reef) (h : c.reefs = []) :
    c.hunt heap = (false, heap) :=
  hunt_of_reefs_nil c heap h

/-- Witness for C10 at a concrete crab with no reefs and a one-reef arena. -/
theorem Crab.hunt_no_reefs_noop_witness :
    (Crab.new "w" 2 0 0).hunt [⟨[⟨0, fun _ => false⟩]⟩]
      = (false, [⟨[⟨0, fun _ => false⟩]⟩]) :=
  Crab.hunt_no_reefs_noop (Crab.new "w" 2 0 0) [⟨[⟨0, fun _ => false⟩]⟩] rfl

/-- C3: in a hunt round that retrieves a prey, the prey is marked escaped
(pushed onto the accumulator and the loop retries) iff its escape outcome
is true for this crab or its diet differs from the crab's diet; the prey
is caught (the loop stops with `true`) exactly when it did not escape and
the diets match. -/
theorem Crab.hunt_escape_catch_condition (c : Crab) (heap h2 : List Reef)
    (p : Prey) (pos : Nat) (esc : List Prey)
    (hcatch : c.catch_prey heap = some (p, pos, h2)) :
    ((p.tryEscape c = true ∨ c.diet ≠ p.diet) →
        c.huntLoop heap esc = c.huntLoop h2 (esc ++ [p]))
    ∧ ((p.tryEscape c = false ∧ c.diet = p.diet) →
        c.huntLoop heap esc = (true, esc, h2)) := by
  constructor
  · intro hor
    rw [huntLoop_some c heap esc p pos h2 hcatch, if_pos]
    cases hor with
    | inl hesc => simp [hesc]
    | inr hdiet => simp [hdiet]
  · rintro ⟨hesc, hdiet⟩
    rw [huntLoop_some c heap esc p pos h2 hcatch, if_neg]
    simp [hesc, hdiet]

/-- Witness for C3: a prey of diet 1 facing a crab of diet 0 escapes even
though its escape outcome is false, and a prey of diet 0 that does not
escape is caught. -/
theorem Crab.hunt_escape_catch_condition_witness :
    ((Crab.mk "h" 1 0 0 [0]).huntLoop [⟨[⟨1, fun _ => false⟩]⟩] []
        = (Crab.mk "h" 1 0 0 [0]).huntLoop [⟨[]⟩] [⟨1, fun _ => false⟩])
    ∧ ((Crab.mk "h" 1 0 0 [0]).huntLoop [⟨[⟨0, fun _ => false⟩]⟩] []
        = (true, [], [⟨[]⟩])) := by
  constructor
  · have h := (Crab.hunt_escape_catch_condition (Crab.mk "h" 1 0 0 [0])
      [⟨[⟨1, fun _ => false⟩]⟩] [⟨[]⟩] ⟨1, fun _ => false⟩ 0 [] rfl).1
      (Or.inr (by decide))
    simpa using h
  · exact (Crab.hunt_escape_catch_condition (Crab.mk "h" 1 0 0 [0])
      [⟨[⟨0, fun _ => false⟩]⟩] [⟨[]⟩] ⟨0, fun _ => false⟩ 0 [] rfl).2
      ⟨rfl, rfl⟩

/-- C9: the hunt loop terminates because every round that retrieves a prey
strictly decreases the number of prey resident across the crab's reefs,
and the number of prey-retrieving rounds is bounded by that count. -/
theorem Crab.hunt_terminates_bound (c : Crab) (heap : List Reef) :
    (∀ p pos h2, c.catch_prey heap = some (p, pos, h2) →
        crabTotalPrey c h2 < crabTotalPrey c heap)
    ∧ c.huntRounds heap ≤ crabTotalPrey c heap :=
  ⟨fun p pos h2 h => catch_prey_crab_total_lt c heap p pos h2 h,
   huntRounds_le_aux c (totalHeapPrey heap) heap (Nat.le_refl _)⟩

/-- Witness for C9 at a crab with one reef holding one prey. -/
theorem Crab.hunt_terminates_bound_witness :
    crabTotalPrey (Crab.mk "t" 1 0 0 [0]) [⟨[]⟩]
        < crabTotalPrey (Crab.mk "t" 1 0 0 [0]) [⟨[⟨0, fun _ => false⟩]⟩]
    ∧ (Crab.mk "t" 1 0 0 [0]).huntRounds [⟨[⟨0, fun _ => false⟩]⟩]
        ≤ crabTotalPrey (Crab.mk "t" 1 0 0 [0]) [⟨[⟨0, fun _ => false⟩]⟩] :=
  ⟨(Crab.hunt_terminates_bound (Crab.mk "t" 1 0 0 [0])
      [⟨[⟨0, fun _ => false⟩]⟩]).1 ⟨0, fun _ => false⟩ 0 [⟨[]⟩] rfl,
   (Crab.hunt_terminates_bound (Crab.mk "t" 1 0 0 [0])
      [⟨[⟨0, fun _ => false⟩]⟩]).2⟩

/-- C1: across all of a crab's reefs, the total number of resident prey
after `hunt()` equals the total before when `hunt()` returns `false`, and
the total before minus exactly one when it returns `true`: every escaped
prey is put back into some reef via `add_prey` before returning. -/
theorem Crab.hunt_total_prey_conservation (c : Crab) (heap : List Reef)
    (hnd : c.reefs.Nodup) (hwf : ∀ id ∈ c.reefs, id < heap.length) :
    crabTotalPrey c (c.hunt heap).2 + (if (c.hunt heap).1 then 1 else 0)
      = crabTotalPrey c heap := by
  by_cases hne : c.reefs = []
  · rw [hunt_of_reefs_nil c heap hne]
    simp
  · rcases hl : c.huntLoop heap [] with ⟨b, esc, h2⟩
    have hcons := huntLoop_conserve c heap hnd [] b esc h2 hl
    have hlen := huntLoop_length c heap [] b esc h2 hl
    have hlt : c.reefs.getD 0 0 < h2.length := by
      rw [hlen]
      exact hwf _ (getD_zero_mem c.reefs hne)
    have hrel := release_foldl_crab_total c hnd hne esc h2 hlt
    rw [hunt_def_eq c heap b esc h2 hl]
    show crabTotalPrey c (esc.foldl (fun h p => c.release_prey h p 0) h2)
        + (if b then 1 else 0) = crabTotalPrey c heap
    rw [hrel]
    cases b <;> simp at hcons ⊢ <;> omega

/-- Witness for C1: one reef, one catchable prey; the totals balance. -/
theorem Crab.hunt_total_prey_conservation_witness :
    crabTotalPrey (Crab.mk "w" 1 0 0 [0])
        ((Crab.mk "w" 1 0 0 [0]).hunt [⟨[⟨0, fun _ => false⟩]⟩]).2
      + (if ((Crab.mk "w" 1 0 0 [0]).hunt [⟨[⟨0, fun _ => false⟩]⟩]).1 then 1 else 0)
      = crabTotalPrey (Crab.mk "w" 1 0 0 [0]) [⟨[⟨0, fun _ => false⟩]⟩] :=
  Crab.hunt_total_prey_conservation (Crab.mk "w" 1 0 0 [0])
    [⟨[⟨0, fun _ => false⟩]⟩] (by decide)
    (by intro id hid; simp at hid; simp [hid])

/-- C5: for a crab with at least one reef, the release phase of `hunt()`
puts every escaped prey (in order of escape) into the reef at index 0 of
the crab's reef list — regardless of which reef each prey was taken from —
and modifies no other reef relative to the end of the hunting loop. -/
theorem Crab.hunt_releases_into_first_reef (c : Crab) (heap : List Reef)
    (hne : c.reefs ≠ []) (hwf : ∀ id ∈ c.reefs, id < heap.length)
    (b : Bool) (esc : List Prey) (h2 : List Reef)
    (hloop : c.huntLoop heap [] = (b, esc, h2)) :
    (c.hunt heap).1 = b
    ∧ (c.hunt heap).2[c.reefs.getD 0 0]?
        = some ⟨((h2[c.reefs.getD 0 0]?).getD ⟨[]⟩).prey ++ esc⟩
    ∧ ∀ id, id ≠ c.reefs.getD 0 0 → (c.hunt heap).2[id]? = h2[id]? := by
  have hlen := huntLoop_length c heap [] b esc h2 hloop
  have hlt : c.reefs.getD 0 0 < h2.length := by
    rw [hlen]
    exact hwf _ (getD_zero_mem c.reefs hne)
  have hrel := release_foldl_get c esc h2 hlt
  rw [hunt_def_eq c heap b esc h2 hloop]
  exact ⟨rfl, hrel.1, hrel.2⟩

/-- Witness for C5: a two-reef crab; the only prey sits in the second reef
and always escapes (diet mismatch), and it ends the hunt resident in reef
index 0 while the second reef stays empty. -/
theorem Crab.hunt_releases_into_first_reef_witness :
    ((Crab.mk "v" 1 0 0 [0, 1]).hunt [⟨[]⟩, ⟨[⟨1, fun _ => false⟩]⟩]).1 = false
    ∧ ((Crab.mk "v" 1 0 0 [0, 1]).hunt [⟨[]⟩, ⟨[⟨1, fun _ => false⟩]⟩]).2[0]?
        = some ⟨[⟨1, fun _ => false⟩]⟩
    ∧ ((Crab.mk "v" 1 0 0 [0, 1]).hunt [⟨[]⟩, ⟨[⟨1, fun _ => false⟩]⟩]).2[1]?
        = some ⟨[]⟩ := by
  have hl : (Crab.mk "v" 1 0 0 [0, 1]).huntLoop [⟨[]⟩, ⟨[⟨1, fun _ => false⟩]⟩] []
      = (false, [⟨1, fun _ => false⟩], [⟨[]⟩, ⟨[]⟩]) := by
    rw [huntLoop_some (Crab.mk "v" 1 0 0 [0, 1]) [⟨[]⟩, ⟨[⟨1, fun _ => false⟩]⟩]
      [] ⟨1, fun _ => false⟩ 1 [⟨[]⟩, ⟨[]⟩] rfl]
    exact huntLoop_none (Crab.mk "v" 1 0 0 [0, 1]) [⟨[]⟩, ⟨[]⟩]
      ([] ++ [⟨1, fun _ => false⟩]) rfl
  have hmain := Crab.hunt_releases_into_first_reef (Crab.mk "v" 1 0 0 [0, 1])
    [⟨[]⟩, ⟨[⟨1, fun _ => false⟩]⟩] (by simp)
    (by intro id hid; simp at hid; rcases hid with rfl | rfl <;> simp)
    false [⟨1, fun _ => false⟩] [⟨[]⟩, ⟨[]⟩] hl
  refine ⟨hmain.1, ?_, ?_⟩
  · have h0 := hmain.2.1
    simpa using h0
  · have h1 := hmain.2.2 1 (by decide)
    simpa using h1

theorem alLookup_alInsert_self {α : Type} (l : List (String × α)) (k : String) (v : α) :
    alLookup (alInsert l k v) k = some v := by
  unfold alLookup alInsert
  rw [List.find?_append]
  have hleft : (l.filter (fun q => q.1 != k)).find? (fun q => q.1 == k) = none := by
    rw [List.find?_eq_none]
    intro q hq
    have hne := (List.mem_filter.mp hq).2
    simp at hne ⊢
    exact hne
  rw [hleft]
  simp

theorem create_clan_get_clan (cs : ClanSystem) (clan_id : String) :
    (cs.create_clan clan_id).get_clan clan_id = some [] := by
  unfold ClanSystem.create_clan ClanSystem.get_clan
  exact alLookup_alInsert_self cs.clans clan_id []

theorem get_clan_member_count_eq (cs : ClanSystem) (id : String) (m : Clan)
    (h : cs.get_clan id = some m) :
    cs.get_clan_member_count id = m.length := by
  unfold ClanSystem.get_clan at h
  unfold ClanSystem.get_clan_member_count
  rw [h]

/-- C6: calling `add_member_to_clan` with a crab name that matches no
resident crab aborts (the unwrap of the lookup), but when the clan id did
not previously exist, an empty clan with that id has already been created
before the failure: the failing call leaves the clan system mutated while
the crab collection is untouched. -/
theorem Beach.add_member_to_clan_not_atomic (b : Beach) (clan_id crab_name : String)
    (hcrab : ∀ c ∈ b.crabs, c.name ≠ crab_name)
    (hclan : b.clan_system.get_clan clan_id = none) :
    (b.add_member_to_clan clan_id crab_name).1 = false
    ∧ (b.add_member_to_clan clan_id crab_name).2.clan_system.get_clan clan_id
        = some []
    ∧ (b.add_member_to_clan clan_id crab_name).2.crabs = b.crabs := by
  have hfind : b.crabs.find? (fun c => c.name == crab_name) = none := by
    rw [List.find?_eq_none]
    intro c hc
    simp
    exact hcrab c hc
  have hres : b.add_member_to_clan clan_id crab_name
      = (false, { b with clan_system := b.clan_system.create_clan clan_id }) := by
    simp only [Beach.add_member_to_clan, hfind, hclan]
    rfl
  rw [hres]
  exact ⟨rfl, create_clan_get_clan b.clan_system clan_id, rfl⟩

/-- Witness for C6 at an empty beach: the abort flag is set and yet the
empty clan "c" exists afterwards. -/
theorem Beach.add_member_to_clan_not_atomic_witness :
    ((Beach.mk [] (ClanSystem.mk [])).add_member_to_clan "c" "x").1 = false
    ∧ ((Beach.mk [] (ClanSystem.mk [])).add_member_to_clan "c" "x").2.clan_system.get_clan "c"
        = some []
    ∧ ((Beach.mk [] (ClanSystem.mk [])).add_member_to_clan "c" "x").2.crabs = [] :=
  Beach.add_member_to_clan_not_atomic (Beach.mk [] (ClanSystem.mk [])) "c" "x"
    (by simp) rfl

/-- C7: `breed_crabs(i, j, name)` aborts iff `i` or `j` is not below the
number of resident crabs; otherwise it appends exactly one crab at the end
of the collection, with the given name, speed 1 and an empty reef list. -/
theorem Beach.breed_crabs_correct (b : Beach) (i j : Nat) (name : String) :
    (b.breed_crabs i j name = none ↔ (i ≥ b.crabs.length ∨ j ≥ b.crabs.length))
    ∧ ∀ b2, b.breed_crabs i j name = some b2 →
        ∃ crab, b2.crabs = b.crabs ++ [crab]
          ∧ crab.name = name ∧ crab.speed = 1 ∧ crab.reefs = [] := by
  unfold Beach.breed_crabs
  by_cases h : i ≥ b.crabs.length ∨ j ≥ b.crabs.length
  · rw [if_pos h]
    constructor
    · simp [h]
    · intro b2 hb2
      cases hb2
  · rw [if_neg h]
    constructor
    · simp [h]
    · intro b2 hb2
      simp only [Option.some_inj] at hb2
      exact ⟨Crab.breed name _ _, by rw [← hb2], rfl, rfl, rfl⟩

/-- Witness for C7: out-of-range index 1 on a one-crab beach aborts, and
in-range breeding appends the single expected offspring. -/
theorem Beach.breed_crabs_correct_witness :
    (Beach.mk [Crab.mk "a" 2 0 0 []] (ClanSystem.mk [])).breed_crabs 1 0 "X" = none
    ∧ ∃ crab,
        (Beach.mk ([Crab.mk "a" 2 0 0 []]
            ++ [Crab.breed "X" (Crab.mk "a" 2 0 0 []) (Crab.mk "a" 2 0 0 [])])
          (ClanSystem.mk [])).crabs
          = [Crab.mk "a" 2 0 0 []] ++ [crab]
        ∧ crab.name = "X" ∧ crab.speed = 1 ∧ crab.reefs = [] :=
  ⟨(Beach.breed_crabs_correct (Beach.mk [Crab.mk "a" 2 0 0 []] (ClanSystem.mk []))
      1 0 "X").1.2 (by simp),
   (Beach.breed_crabs_correct (Beach.mk [Crab.mk "a" 2 0 0 []] (ClanSystem.mk []))
      0 0 "X").2
     (Beach.mk ([Crab.mk "a" 2 0 0 []]
         ++ [Crab.breed "X" (Crab.mk "a" 2 0 0 []) (Crab.mk "a" 2 0 0 [])])
       (ClanSystem.mk [])) rfl⟩

theorem get_winner_clan_eval (b : Beach) (id1 id2 : String) (m1 m2 : Clan)
    (hm1 : b.clan_system.get_clan id1 = some m1)
    (hm2 : b.clan_system.get_clan id2 = some m2)
    (hne1 : m1 ≠ []) (hne2 : m2 ≠ []) :
    b.get_winner_clan id1 id2 = some (Except.ok
      (if (m2.map (fun q => q.2.speed)).sum / m2.length
          < (m1.map (fun q => q.2.speed)).sum / m1.length then some id1
       else if (m1.map (fun q => q.2.speed)).sum / m1.length
          < (m2.map (fun q => q.2.speed)).sum / m2.length then some id2
       else none)) := by
  have hc1 := get_clan_member_count_eq b.clan_system id1 m1 hm1
  have hc2 := get_clan_member_count_eq b.clan_system id2 m2 hm2
  have hz : ¬(b.clan_system.get_clan_member_count id1 = 0
      ∨ b.clan_system.get_clan_member_count id2 = 0) := by
    rw [hc1, hc2]
    rintro (h | h)
    · exact hne1 (List.length_eq_zero.mp h)
    · exact hne2 (List.length_eq_zero.mp h)
  simp only [Beach.get_winner_clan, hm1, hm2]
  rw [if_neg hz, hc1, hc2]

/-- C2: `get_winner_clan` returns an error exactly when one of the two
clan ids does not exist; when both exist and are nonempty it returns the
id of the clan whose truncating average member speed is strictly greater,
or no winner when the averages are equal. -/
theorem Beach.get_winner_clan_correct (b : Beach) (id1 id2 : String) :
    ((∃ e, b.get_winner_clan id1 id2 = some (Except.error e)) ↔
      (b.clan_system.get_clan id1 = none ∨ b.clan_system.get_clan id2 = none))
    ∧ ∀ m1 m2, b.clan_system.get_clan id1 = some m1 →
        b.clan_system.get_clan id2 = some m2 → m1 ≠ [] → m2 ≠ [] →
        b.get_winner_clan id1 id2 = some (Except.ok
          (if (m2.map (fun q => q.2.speed)).sum / m2.length
              < (m1.map (fun q => q.2.speed)).sum / m1.length then some id1
           else if (m1.map (fun q => q.2.speed)).sum / m1.length
              < (m2.map (fun q => q.2.speed)).sum / m2.length then some id2
           else none)) := by
  constructor
  · constructor
    · rintro ⟨e, he⟩
      by_contra hno
      push_neg at hno
      obtain ⟨h1, h2⟩ := hno
      rcases hm1 : b.clan_system.get_clan id1 with _ | m1
      · exact h1 hm1
      rcases hm2 : b.clan_system.get_clan id2 with _ | m2
      · exact h2 hm2
      simp only [Beach.get_winner_clan, hm1, hm2] at he
      by_cases hz : b.clan_system.get_clan_member_count id1 = 0
          ∨ b.clan_system.get_clan_member_count id2 = 0
      · rw [if_pos hz] at he
        cases he
      · rw [if_neg hz] at he
        simp at he
    · intro hor
      rcases hor with h1 | h1
      · refine ⟨"Clan does not exist", ?_⟩
        simp only [Beach.get_winner_clan, h1]
      · rcases hx : b.clan_system.get_clan id1 with _ | m1
        · refine ⟨"Clan does not exist", ?_⟩
          simp only [Beach.get_winner_clan, hx]
        · refine ⟨"Clan does not exist", ?_⟩
          simp only [Beach.get_winner_clan, hx, h1]
  · intro m1 m2 hm1 hm2 hne1 hne2
    exact get_winner_clan_eval b id1 id2 m1 m2 hm1 hm2 hne1 hne2

/-- Witness for C2: clan "a" (one member of speed 2) beats clan "b" (one
member of speed 1). -/
theorem Beach.get_winner_clan_correct_witness :
    Beach.get_winner_clan (Beach.mk [] (ClanSystem.mk
        [("a", [("x", Crab.mk "x" 2 0 0 [])]), ("b", [("y", Crab.mk "y" 1 0 0 [])])]))
      "a" "b" = some (Except.ok (some "a")) := by
  have h := (Beach.get_winner_clan_correct (Beach.mk [] (ClanSystem.mk
      [("a", [("x", Crab.mk "x" 2 0 0 [])]), ("b", [("y", Crab.mk "y" 1 0 0 [])])]))
      "a" "b").2
    [("x", Crab.mk "x" 2 0 0 [])] [("y", Crab.mk "y" 1 0 0 [])] rfl rfl
    (by simp) (by simp)
  simpa using h

/-- C8: for two existing nonempty clans, `get_winner_clan` reports the
same outcome in either argument order. -/
theorem Beach.get_winner_clan_symmetric (b : Beach) (id1 id2 : String)
    (m1 m2 : Clan)
    (hm1 : b.clan_system.get_clan id1 = some m1)
    (hm2 : b.clan_system.get_clan id2 = some m2)
    (hne1 : m1 ≠ []) (hne2 : m2 ≠ []) :
    b.get_winner_clan id1 id2 = b.get_winner_clan id2 id1 := by
  rw [get_winner_clan_eval b id1 id2 m1 m2 hm1 hm2 hne1 hne2,
    get_winner_clan_eval b id2 id1 m2 m1 hm2 hm1 hne2 hne1]
  rcases Nat.lt_trichotomy ((m1.map (fun q => q.2.speed)).sum / m1.length)
      ((m2.map (fun q => q.2.speed)).sum / m2.length) with h | h | h
  · rw [if_neg (by omega), if_pos h, if_pos h]
  · rw [h]
    simp
  · rw [if_pos h, if_neg (by omega), if_pos h]

/-- Witness for C8 at two concrete nonempty clans. -/
theorem Beach.get_winner_clan_symmetric_witness :
    Beach.get_winner_clan (Beach.mk [] (ClanSystem.mk
        [("a", [("x", Crab.mk "x" 2 0 0 [])]), ("b", [("y", Crab.mk "y" 1 0 0 [])])]))
      "a" "b"
    = Beach.get_winner_clan (Beach.mk [] (ClanSystem.mk
        [("a", [("x", Crab.mk "x" 2 0 0 [])]), ("b", [("y", Crab.mk "y" 1 0 0 [])])]))
      "b" "a" :=
  Beach.get_winner_clan_symmetric (Beach.mk [] (ClanSystem.mk
      [("a", [("x", Crab.mk "x" 2 0 0 [])]), ("b", [("y", Crab.mk "y" 1 0 0 [])])]))
    "a" "b" [("x", Crab.mk "x" 2 0 0 [])] [("y", Crab.mk "y" 1 0 0 [])]
    rfl rfl (by simp) (by simp)

theorem largest_fold_mono (sz : String × Clan → Nat) (l : List (String × Clan)) :
    ∀ acc : Option String × Nat,
      acc.2 ≤ (l.foldl (fun acc q => if sz q > acc.2 then (some q.1, sz q) else acc) acc).2 := by
  induction l with
  | nil =>
    intro acc
    exact Nat.le_refl _
  | cons q t ih =>
    intro acc
    simp only [List.foldl_cons]
    by_cases hq : sz q > acc.2
    · rw [if_pos hq]
      exact Nat.le_trans (Nat.le_of_lt hq) (ih (some q.1, sz q))
    · rw [if_neg hq]
      exact ih acc

theorem largest_fold_ge (sz : String × Clan → Nat) (l : List (String × Clan)) :
    ∀ acc : Option String × Nat, ∀ q ∈ l,
      sz q ≤ (l.foldl (fun acc q => if sz q > acc.2 then (some q.1, sz q) else acc) acc).2 := by
  induction l with
  | nil =>
    intro acc q hq
    simp at hq
  | cons a t ih =>
    intro acc q hq
    simp only [List.foldl_cons]
    rcases List.mem_cons.mp hq with rfl | hmem
    · by_cases ha : sz q > acc.2
      · rw [if_pos ha]
        exact Nat.le_trans (Nat.le_refl _) (largest_fold_mono sz t (some q.1, sz q))
      · rw [if_neg ha]
        exact Nat.le_trans (Nat.le_of_not_lt ha) (largest_fold_mono sz t acc)
    · by_cases ha : sz a > acc.2
      · rw [if_pos ha]
        exact ih (some a.1, sz a) q hmem
      · rw [if_neg ha]
        exact ih acc q hmem

theorem largest_fold_result (sz : String × Clan → Nat) (l : List (String × Clan)) :
    ∀ acc : Option String × Nat,
      (l.foldl (fun acc q => if sz q > acc.2 then (some q.1, sz q) else acc) acc = acc)
      ∨ ∃ q ∈ l,
          (l.foldl (fun acc q => if sz q > acc.2 then (some q.1, sz q) else acc) acc).1
            = some q.1
          ∧ (l.foldl (fun acc q => if sz q > acc.2 then (some q.1, sz q) else acc) acc).2
            = sz q := by
  induction l with
  | nil =>
    intro acc
    exact Or.inl rfl
  | cons a t ih =>
    intro acc
    simp only [List.foldl_cons]
    by_cases ha : sz a > acc.2
    · rw [if_pos ha]
      rcases ih (some a.1, sz a) with h | ⟨q, hq, h1, h2⟩
      · refine Or.inr ⟨a, List.mem_cons_self _ _, ?_, ?_⟩
        · rw [h]
        · rw [h]
      · exact Or.inr ⟨q, List.mem_cons_of_mem _ hq, h1, h2⟩
    · rw [if_neg ha]
      rcases ih acc with h | ⟨q, hq, h1, h2⟩
      · exact Or.inl h
      · exact Or.inr ⟨q, List.mem_cons_of_mem _ hq, h1, h2⟩

theorem largest_fold_all_zero (sz : String × Clan → Nat) (l : List (String × Clan))
    (h : ∀ q ∈ l, sz q = 0) :
    l.foldl (fun acc q => if sz q > acc.2 then (some q.1, sz q) else acc) (none, 0)
      = (none, 0) := by
  induction l with
  | nil => rfl
  | cons a t ih =>
    simp only [List.foldl_cons]
    rw [if_neg (by rw [h a (List.mem_cons_self _ _)]; omega)]
    exact ih (fun q hq => h q (List.mem_cons_of_mem _ hq))

theorem alLookup_nodup (l : List (String × Clan))
    (hnd : (l.map (fun q => q.1)).Nodup) (q : String × Clan) (hq : q ∈ l) :
    alLookup l q.1 = some q.2 := by
  induction l with
  | nil => simp at hq
  | cons a t ih =>
    simp only [List.map_cons, List.nodup_cons] at hnd
    rcases List.mem_cons.mp hq with rfl | hmem
    · unfold alLookup
      simp [List.find?]
    · have hne : a.1 ≠ q.1 := by
        intro he
        exact hnd.1 (he ▸ (List.mem_map.mpr ⟨q, hmem, rfl⟩))
      unfold alLookup at ih ⊢
      rw [List.find?]
      have : (a.1 == q.1) = false := by
        simp [hne]
      rw [this]
      exact ih hnd.2 hmem

theorem member_count_nodup (cs : ClanSystem)
    (hnd : (cs.clans.map (fun q => q.1)).Nodup) (q : String × Clan)
    (hq : q ∈ cs.clans) :
    cs.get_clan_member_count q.1 = q.2.length := by
  unfold ClanSystem.get_clan_member_count
  rw [alLookup_nodup cs.clans hnd q hq]

/-- C4 (counterexample): a clan system with one clan ("a", zero members)
has a clan, yet `get_largest_clan_id` returns the no-clan value, because
the fold starts from size 0 and only updates on a strict increase. -/
theorem ClanSystem.get_largest_clan_id_cex :
    (ClanSystem.mk [("a", [])]).get_clan_count = 1
    ∧ (ClanSystem.mk [("a", [])]).get_largest_clan_id = none :=
  ⟨rfl, rfl⟩

/-- C4 (amended): over a clan system whose clan ids are distinct (a
`HashMap` invariant), `get_largest_clan_id` returns the no-clan value iff
every clan has zero members (so also for nonempty systems of only empty
clans); as soon as some clan has a member, it returns the id of one of
the clans with the maximal member count. -/
theorem ClanSystem.get_largest_clan_id_max (cs : ClanSystem)
    (hnd : (cs.clans.map (fun q => q.1)).Nodup) :
    (cs.get_largest_clan_id = none ↔ ∀ q ∈ cs.clans, q.2.length = 0)
    ∧ ((∃ q ∈ cs.clans, 0 < q.2.length) →
        ∃ q ∈ cs.clans, cs.get_largest_clan_id = some q.1
          ∧ ∀ q2 ∈ cs.clans, q2.2.length ≤ q.2.length) := by
  have hsz : ∀ q ∈ cs.clans, cs.get_clan_member_count q.1 = q.2.length :=
    fun q hq => member_count_nodup cs hnd q hq
  have hG : cs.get_largest_clan_id
      = (cs.clans.foldl
          (fun acc q => if cs.get_clan_member_count q.1 > acc.2
            then (some q.1, cs.get_clan_member_count q.1) else acc)
          (none, 0)).1 := rfl
  constructor
  · constructor
    · intro hnone q hq
      by_contra hpos
      have hq0 : 0 < q.2.length := Nat.pos_of_ne_zero hpos
      have hge := largest_fold_ge (fun q => cs.get_clan_member_count q.1)
        cs.clans (none, 0) q hq
      rcases largest_fold_result (fun q => cs.get_clan_member_count q.1)
          cs.clans (none, 0) with h | ⟨q2, hq2, h1, h2⟩
      · rw [h] at hge
        simp only [] at hge
        rw [hsz q hq] at hge
        omega
      · rw [hG, h1] at hnone
        cases hnone
    · intro hall
      rw [hG, largest_fold_all_zero (fun q => cs.get_clan_member_count q.1) cs.clans
        (fun q hq => by
          show cs.get_clan_member_count q.1 = 0
          rw [hsz q hq]
          exact hall q hq)]
  · rintro ⟨q0, hq0, hq0pos⟩
    rcases largest_fold_result (fun q => cs.get_clan_member_count q.1)
        cs.clans (none, 0) with h | ⟨q, hq, h1, h2⟩
    · have hge := largest_fold_ge (fun q => cs.get_clan_member_count q.1)
        cs.clans (none, 0) q0 hq0
      rw [h] at hge
      simp only [] at hge
      rw [hsz q0 hq0] at hge
      omega
    · refine ⟨q, hq, by rw [hG, h1], ?_⟩
      intro q2 hq2
      have hge := largest_fold_ge (fun q => cs.get_clan_member_count q.1)
        cs.clans (none, 0) q2 hq2
      simp only [] at hge
      rw [h2, hsz q2 hq2, hsz q hq] at hge
      exact hge

/-- Witness for C4 (amended) at a one-clan system with one member. -/
theorem ClanSystem.get_largest_clan_id_max_witness :
    (ClanSystem.mk [("a", [("x", Crab.mk "x" 1 0 0 [])])]).get_largest_clan_id
      = some "a" := by
  obtain ⟨q, hq, hmain, hmax⟩ :=
    (ClanSystem.get_largest_clan_id_max
        (ClanSystem.mk [("a", [("x", Crab.mk "x" 1 0 0 [])])]) (by simp)).2
      ⟨("a", [("x", Crab.mk "x" 1 0 0 [])]), by simp, by simp⟩
  simp at hq
  rw [hmain, hq]
